import Mathlib

/-!
Shallow embedding of the Move module contract::nft_marketplace
(the custody/escrow marketplace engine) and proofs of the spec's claims.

Modelling conventions:
* addresses and object ids are natural numbers;
* Move byte vectors (vector<u8>) are lists of naturals;
* each entry function becomes a pure transition on an explicit State and
  returns Except Err OpResult; a Move abort rolls the transaction back, so
  an .error result carries no state, no events and no transfers;
* the registry's u64 counters are naturals; the two u64 subtractions in
  delist_nft and buy_nft keep Move's abort-on-underflow behaviour through
  an explicit zero test (EArithmeticUnderflow);
* Sui object custody is recorded (the holder field tracks whom each NFT
  object was last transferred to by transfer::public_transfer) but the
  runtime rule that the transaction sender must hold an owned object that
  it passes by value is not enforced, matching the spec's reading that the
  operations are invoked on the engine with the object resolved by id.
-/

namespace NftMarketplace

/-- Account addresses (Move address values). -/
abbrev Addr := Nat

/-- Object identifiers (Move ID / UID values). -/
abbrev ObjId := Nat

/-- The marketplace holding address, Move's named address nft_marketplace:
listed NFTs are transferred to it by list_nft. -/
def marketplaceAddr : Addr := 0

/-- Continuation byte of a UTF-8 sequence: 0x80 to 0xBF. -/
def utf8Cont (b : Nat) : Bool := decide (0x80 ≤ b ∧ b ≤ 0xBF)

/-- Validity of a byte sequence as UTF-8, as checked by std::string::utf8
(standard UTF-8: no overlong forms, no surrogates, at most U+10FFFF). -/
def validUtf8 : List Nat → Bool
  | [] => true
  | b :: rest =>
    if b ≤ 0x7F then validUtf8 rest
    else if 0xC2 ≤ b ∧ b ≤ 0xDF then
      match rest with
      | c1 :: r => if utf8Cont c1 then validUtf8 r else false
      | [] => false
    else if b = 0xE0 then
      match rest with
      | c1 :: c2 :: r =>
        if decide (0xA0 ≤ c1 ∧ c1 ≤ 0xBF) && utf8Cont c2 then validUtf8 r else false
      | _ => false
    else if (0xE1 ≤ b ∧ b ≤ 0xEC) ∨ (0xEE ≤ b ∧ b ≤ 0xEF) then
      match rest with
      | c1 :: c2 :: r =>
        if utf8Cont c1 && utf8Cont c2 then validUtf8 r else false
      | _ => false
    else if b = 0xED then
      match rest with
      | c1 :: c2 :: r =>
        if decide (0x80 ≤ c1 ∧ c1 ≤ 0x9F) && utf8Cont c2 then validUtf8 r else false
      | _ => false
    else if b = 0xF0 then
      match rest with
      | c1 :: c2 :: c3 :: r =>
        if decide (0x90 ≤ c1 ∧ c1 ≤ 0xBF) && utf8Cont c2 && utf8Cont c3 then validUtf8 r
        else false
      | _ => false
    else if 0xF1 ≤ b ∧ b ≤ 0xF3 then
      match rest with
      | c1 :: c2 :: c3 :: r =>
        if utf8Cont c1 && utf8Cont c2 && utf8Cont c3 then validUtf8 r else false
      | _ => false
    else if b = 0xF4 then
      match rest with
      | c1 :: c2 :: c3 :: r =>
        if decide (0x80 ≤ c1 ∧ c1 ≤ 0x8F) && utf8Cont c2 && utf8Cont c3 then validUtf8 r
        else false
      | _ => false
    else false

/-- Validity of a byte sequence as ASCII, as checked by std::ascii::string
(every byte at most 0x7F); url::new_unsafe_from_bytes builds a
std::ascii::String, so it aborts on any non-ASCII byte. -/
def validAscii : List Nat → Bool
  | [] => true
  | b :: rest => if b ≤ 0x7F then validAscii rest else false

/-- The NFT struct's data fields (its id is the key under which the object
is stored, mirroring the UID inside the Move struct). -/
structure NFTRec where
  name : List Nat
  description : List Nat
  url : List Nat
  creator : Addr
  owner : Addr
deriving Repr, DecidableEq

/-- A stored Sui object: the NFT data plus the address holding the object
(the recipient of the last transfer::public_transfer). -/
structure Obj where
  nft : NFTRec
  holder : Addr
deriving Repr, DecidableEq

/-- Listing information for an NFT, as in the Move struct Listing. -/
structure Listing where
  nft_id : ObjId
  seller : Addr
  price : Nat
  listed : Bool
deriving Repr, DecidableEq

/-- The whole observable state: the shared NftMarketplaceRegistry (four u64
counters plus the listings table) together with the store of NFT objects
and a counter supplying fresh object ids (object::new). -/
structure State where
  total_nfts_minted : Nat
  total_nfts_listed : Nat
  total_sales : Nat
  total_volume : Nat
  listings : List (ObjId × Listing)
  objects : List (ObjId × Obj)
  next_id : Nat
deriving Repr, DecidableEq

/-- The state created by init: zero counters, empty listings table. -/
def initState : State :=
  { total_nfts_minted := 0
    total_nfts_listed := 0
    total_sales := 0
    total_volume := 0
    listings := []
    objects := []
    next_id := 0 }

/-- Abort reasons.  The first four are the module's error constants
(ENotOwner = 1, EInsufficientPayment = 2, ENotListed = 3, EInvalidPrice = 4).
EInvalidUtf8 is std::string::utf8's abort, EInvalidAscii is std::ascii's
EINVALID_ASCII_CHARACTER abort raised through url::new_unsafe_from_bytes,
EFieldAlreadyExists is the
framework abort of table::add on a present key, EArithmeticUnderflow is a
u64 subtraction below zero, and ENoSuchObject stands for the impossibility
of supplying an object argument that does not exist. -/
inductive Err where
  | ENotOwner
  | EInsufficientPayment
  | ENotListed
  | EInvalidPrice
  | EInvalidUtf8
  | EInvalidAscii
  | EFieldAlreadyExists
  | EArithmeticUnderflow
  | ENoSuchObject
deriving Repr, DecidableEq

/-- The module's domain events. -/
inductive Event where
  | NFTMinted (nft_id : ObjId) (creator : Addr) (owner : Addr)
      (name : List Nat) (url : List Nat)
  | NFTListed (nft_id : ObjId) (seller : Addr) (price : Nat)
  | NFTDelisted (nft_id : ObjId) (seller : Addr)
  | NFTSold (nft_id : ObjId) (seller : Addr) (buyer : Addr) (price : Nat)
  | OwnerUpdated (nft_id : ObjId) (old_owner : Addr) (new_owner : Addr)
deriving Repr, DecidableEq

/-- Result of a committed (non-aborting) operation: the new state, the
events emitted by event::emit in order, the coin transfers (value,
recipient) and the NFT object transfers (id, recipient). -/
structure OpResult where
  state : State
  events : List Event
  coinOut : List (Nat × Addr)
  nftOut : List (ObjId × Addr)
deriving Repr, DecidableEq

instance {ε α : Type} [DecidableEq ε] [DecidableEq α] :
    DecidableEq (Except ε α) := fun a b =>
  match a, b with
  | .error e, .error f =>
    if h : e = f then isTrue (h ▸ rfl)
    else isFalse (fun hh => h (by injection hh))
  | .error _, .ok _ => isFalse (fun hh => Except.noConfusion hh)
  | .ok _, .error _ => isFalse (fun hh => Except.noConfusion hh)
  | .ok x, .ok y =>
    if h : x = y then isTrue (h ▸ rfl)
    else isFalse (fun hh => h (by injection hh))

/-- First-match lookup in an association list (sui::table borrow). -/
def lookupA {α : Type} : List (ObjId × α) → ObjId → Option α
  | [], _ => none
  | (k, v) :: rest, i => if k = i then some v else lookupA rest i

/-- Removal of the first entry with the given key (sui::table remove). -/
def eraseA {α : Type} : List (ObjId × α) → ObjId → List (ObjId × α)
  | [], _ => []
  | (k, v) :: rest, i => if k = i then rest else (k, v) :: eraseA rest i

/-- In-place update of the first entry with the given key. -/
def updateA {α : Type} : List (ObjId × α) → ObjId → (α → α) → List (ObjId × α)
  | [], _, _ => []
  | (k, v) :: rest, i, f =>
    if k = i then (k, f v) :: rest else (k, v) :: updateA rest i f

/-- Keys of an association list. -/
def keysA {α : Type} (l : List (ObjId × α)) : List ObjId := l.map Prod.fst

/-- Owner field of the NFT object stored under an id. -/
def ownerOf (s : State) (i : ObjId) : Option Addr :=
  (lookupA s.objects i).map (fun o => o.nft.owner)

/-- mint_nft: checks the name through string::utf8 (abort on invalid
UTF-8), then the url bytes through url::new_unsafe_from_bytes, which
builds a std::ascii::String and aborts on any byte above 0x7F, then the
description through string::utf8 — in the source's evaluation order —
then creates the NFT owned by the sender, increments total_nfts_minted,
emits NFTMinted and transfers the NFT to the sender. -/
def mint_nft (s : State) (name description url : List Nat) (sender : Addr) :
    Except Err OpResult :=
  if validUtf8 name = false then .error .EInvalidUtf8
  else if validAscii url = false then .error .EInvalidAscii
  else if validUtf8 description = false then .error .EInvalidUtf8
  else
    let nft_id := s.next_id
    let nft : NFTRec :=
      { name := name, description := description, url := url
        creator := sender, owner := sender }
    .ok
      { state :=
          { s with
            total_nfts_minted := s.total_nfts_minted + 1
            objects := (nft_id, { nft := nft, holder := sender }) :: s.objects
            next_id := s.next_id + 1 }
        events := [.NFTMinted nft_id sender sender name url]
        coinOut := []
        nftOut := [(nft_id, sender)] }

/-- list_nft: asserts price > 0 (EInvalidPrice), then nft.owner == sender
(ENotOwner); table::add aborts when a listing for the id already exists
(EFieldAlreadyExists); otherwise stores Listing{nft_id, seller, price,
listed := true}, increments total_nfts_listed, emits NFTListed and
transfers the NFT to the marketplace address. -/
def list_nft (s : State) (nft_id : ObjId) (price : Nat) (sender : Addr) :
    Except Err OpResult :=
  match lookupA s.objects nft_id with
  | none => .error .ENoSuchObject
  | some obj =>
    if price = 0 then .error .EInvalidPrice
    else if obj.nft.owner ≠ sender then .error .ENotOwner
    else if (lookupA s.listings nft_id).isSome then .error .EFieldAlreadyExists
    else
      .ok
        { state :=
            { s with
              listings :=
                (nft_id,
                  { nft_id := nft_id, seller := sender, price := price
                    listed := true }) :: s.listings
              total_nfts_listed := s.total_nfts_listed + 1
              objects :=
                updateA s.objects nft_id
                  (fun o => { o with holder := marketplaceAddr }) }
          events := [.NFTListed nft_id sender price]
          coinOut := []
          nftOut := [(nft_id, marketplaceAddr)] }

/-- delist_nft: asserts the listing exists (ENotListed), removes it, asserts
listing.seller == sender (ENotOwner; the Move abort after table::remove
rolls the removal back, so failure leaves the table intact), decrements
total_nfts_listed (u64 underflow aborts), emits NFTDelisted and transfers
the NFT back to the sender. -/
def delist_nft (s : State) (nft_id : ObjId) (sender : Addr) :
    Except Err OpResult :=
  match lookupA s.objects nft_id with
  | none => .error .ENoSuchObject
  | some _ =>
    match lookupA s.listings nft_id with
    | none => .error .ENotListed
    | some listing =>
      if listing.seller ≠ sender then .error .ENotOwner
      else if s.total_nfts_listed = 0 then .error .EArithmeticUnderflow
      else
        .ok
          { state :=
              { s with
                listings := eraseA s.listings nft_id
                total_nfts_listed := s.total_nfts_listed - 1
                objects :=
                  updateA s.objects nft_id (fun o => { o with holder := sender }) }
            events := [.NFTDelisted nft_id sender]
            coinOut := []
            nftOut := [(nft_id, sender)] }

/-- buy_nft: asserts the listing exists (ENotListed), removes it, asserts
coin::value(payment) >= price (EInsufficientPayment; abort rolls the
removal back), sets the NFT's owner field to the buyer, increments
total_sales, adds price to total_volume, decrements total_nfts_listed,
emits NFTSold then OwnerUpdated (old_owner is the NFT's owner field), then
transfers the whole payment coin to the seller and the NFT to the buyer. -/
def buy_nft (s : State) (nft_id : ObjId) (payment : Nat) (sender : Addr) :
    Except Err OpResult :=
  match lookupA s.objects nft_id with
  | none => .error .ENoSuchObject
  | some obj =>
    match lookupA s.listings nft_id with
    | none => .error .ENotListed
    | some listing =>
      if payment < listing.price then .error .EInsufficientPayment
      else if s.total_nfts_listed = 0 then .error .EArithmeticUnderflow
      else
        .ok
          { state :=
              { s with
                listings := eraseA s.listings nft_id
                total_sales := s.total_sales + 1
                total_volume := s.total_volume + listing.price
                total_nfts_listed := s.total_nfts_listed - 1
                objects :=
                  updateA s.objects nft_id
                    (fun o =>
                      { o with
                        nft := { o.nft with owner := sender }
                        holder := sender }) }
            events :=
              [.NFTSold nft_id listing.seller sender listing.price,
               .OwnerUpdated nft_id obj.nft.owner sender]
            coinOut := [(payment, listing.seller)]
            nftOut := [(nft_id, sender)] }

/-- update_owner: asserts nft.owner == sender (ENotOwner), sets the owner
field to new_owner, emits OwnerUpdated and transfers the NFT to new_owner.
It takes no registry argument and performs no listing check. -/
def update_owner (s : State) (nft_id : ObjId) (new_owner : Addr) (sender : Addr) :
    Except Err OpResult :=
  match lookupA s.objects nft_id with
  | none => .error .ENoSuchObject
  | some obj =>
    if obj.nft.owner ≠ sender then .error .ENotOwner
    else
      .ok
        { state :=
            { s with
              objects :=
                updateA s.objects nft_id
                  (fun o =>
                    { o with
                      nft := { o.nft with owner := new_owner }
                      holder := new_owner }) }
          events := [.OwnerUpdated nft_id obj.nft.owner new_owner]
          coinOut := []
          nftOut := [(nft_id, new_owner)] }

/-- The five entry operations with their arguments. -/
inductive Op where
  | mint (name description url : List Nat) (sender : Addr)
  | list (nft_id : ObjId) (price : Nat) (sender : Addr)
  | delist (nft_id : ObjId) (sender : Addr)
  | buy (nft_id : ObjId) (payment : Nat) (sender : Addr)
  | updateOwner (nft_id : ObjId) (new_owner : Addr) (sender : Addr)
deriving Repr, DecidableEq

/-- Dispatch of one operation. -/
def step (s : State) : Op → Except Err OpResult
  | .mint name description url sender => mint_nft s name description url sender
  | .list nft_id price sender => list_nft s nft_id price sender
  | .delist nft_id sender => delist_nft s nft_id sender
  | .buy nft_id payment sender => buy_nft s nft_id payment sender
  | .updateOwner nft_id new_owner sender => update_owner s nft_id new_owner sender

/-- The state after attempting an operation: a Move abort rolls the whole
transaction back, so a failing operation leaves the state unchanged. -/
def applyOp (s : State) (op : Op) : State :=
  match step s op with
  | .ok r => r.state
  | .error _ => s

/-- Success test for an operation outcome. -/
def isOk {ε α : Type} : Except ε α → Bool
  | .ok _ => true
  | .error _ => false

/-- The events of a committed operation (none when it aborted). -/
def okEvents (e : Except Err OpResult) : Option (List Event) :=
  match e with
  | .ok r => some r.events
  | .error _ => none

/-- States reachable from the initial registry by any sequence of
operations (failing attempts included, which leave the state as it was). -/
inductive Reachable : State → Prop where
  | init : Reachable initState
  | step (s : State) (op : Op) : Reachable s → Reachable (applyOp s op)

/-- Structural well-formedness of a state: the active-listings counter
equals the size of the listings table, listing keys are distinct, every
listed id has a stored object, and every stored object id is below the
fresh-id counter. -/
structure WF (s : State) : Prop where
  count_eq : s.total_nfts_listed = s.listings.length
  nodup : (keysA s.listings).Nodup
  listed_obj : ∀ i : ObjId, (lookupA s.listings i).isSome = true →
    (lookupA s.objects i).isSome = true
  obj_lt : ∀ i : ObjId, (lookupA s.objects i).isSome = true → i < s.next_id

/-- Whether an operation is a list call on the given asset id. -/
def notListOn (i : ObjId) : Op → Prop
  | .list j _ _ => j ≠ i
  | _ => True

/-- The operations whose body writes the NFT's owner field. -/
def changesOwnerField : Op → Bool
  | .buy _ _ _ => true
  | .updateOwner _ _ _ => true
  | _ => false

/-- Concrete reachable state: address 1 minted NFT 0 (name A, description
B, url C). -/
def sW1 : State := applyOp initState (.mint [65] [66] [67] 1)

/-- Concrete reachable state: after sW1, address 1 listed NFT 0 at
price 100. -/
def sW2 : State := applyOp sW1 (.list 0 100 1)

/-- Concrete reachable state: after sW2, address 1 transferred NFT 0 to
address 2 through update_owner while the listing was still active. -/
def sW3 : State := applyOp sW2 (.updateOwner 0 2 1)

/-- Concrete reachable state: after sW3, address 1 (the seller of record)
delisted NFT 0. -/
def sW4 : State := applyOp sW3 (.delist 0 1)

/-- The committed result of buying NFT 0 on sW2 for 150 as address 2. -/
def rW : OpResult :=
  { state :=
      { total_nfts_minted := 1
        total_nfts_listed := 0
        total_sales := 1
        total_volume := 100
        listings := []
        objects :=
          [(0, { nft := { name := [65], description := [66], url := [67]
                          creator := 1, owner := 2 }, holder := 2 })]
        next_id := 1 }
    events := [.NFTSold 0 1 2 100, .OwnerUpdated 0 1 2]
    coinOut := [(150, 1)]
    nftOut := [(0, 2)] }

/-- The committed result of listing NFT 0 on sW1 at price 100 as
address 1. -/
def rList : OpResult :=
  { state :=
      { total_nfts_minted := 1
        total_nfts_listed := 1
        total_sales := 0
        total_volume := 0
        listings := [(0, { nft_id := 0, seller := 1, price := 100, listed := true })]
        objects :=
          [(0, { nft := { name := [65], description := [66], url := [67]
                          creator := 1, owner := 1 }, holder := marketplaceAddr })]
        next_id := 1 }
    events := [.NFTListed 0 1 100]
    coinOut := []
    nftOut := [(0, marketplaceAddr)] }

theorem keysA_cons {α : Type} (k : ObjId) (v : α) (rest : List (ObjId × α)) :
    keysA ((k, v) :: rest) = k :: keysA rest := rfl

theorem lookupA_cons_self {α : Type} (k : ObjId) (v : α) (rest : List (ObjId × α)) :
    lookupA ((k, v) :: rest) k = some v := by
  simp [lookupA]

theorem lookupA_cons_ne {α : Type} {k i : ObjId} (v : α) (rest : List (ObjId × α))
    (h : k ≠ i) : lookupA ((k, v) :: rest) i = lookupA rest i := by
  simp [lookupA, h]

theorem eraseA_cons_self {α : Type} (k : ObjId) (v : α) (rest : List (ObjId × α)) :
    eraseA ((k, v) :: rest) k = rest := by
  simp [eraseA]

theorem eraseA_cons_ne {α : Type} {k i : ObjId} (v : α) (rest : List (ObjId × α))
    (h : k ≠ i) : eraseA ((k, v) :: rest) i = (k, v) :: eraseA rest i := by
  simp [eraseA, h]

theorem updateA_cons_self {α : Type} (k : ObjId) (v : α) (rest : List (ObjId × α))
    (f : α → α) : updateA ((k, v) :: rest) k f = (k, f v) :: rest := by
  simp [updateA]

theorem updateA_cons_ne {α : Type} {k i : ObjId} (v : α) (rest : List (ObjId × α))
    (f : α → α) (h : k ≠ i) :
    updateA ((k, v) :: rest) i f = (k, v) :: updateA rest i f := by
  simp [updateA, h]

theorem lookupA_isSome_iff_mem {α : Type} (l : List (ObjId × α)) (j : ObjId) :
    (lookupA l j).isSome = true ↔ j ∈ keysA l := by
  induction l with
  | nil => simp [lookupA, keysA]
  | cons p rest ih =>
    obtain ⟨k, v⟩ := p
    rw [keysA_cons, List.mem_cons]
    by_cases h : k = j
    · subst h
      rw [lookupA_cons_self]
      simp
    · rw [lookupA_cons_ne v rest h, ih]
      constructor
      · exact Or.inr
      · rintro (hj | hj)
        · exact absurd hj.symm h
        · exact hj

theorem lookupA_none_not_mem {α : Type} {l : List (ObjId × α)} {j : ObjId}
    (h : lookupA l j = none) : j ∉ keysA l := by
  rw [← lookupA_isSome_iff_mem, h]
  simp

theorem mem_keysA_eraseA {α : Type} {l : List (ObjId × α)} {i j : ObjId}
    (h : j ∈ keysA (eraseA l i)) : j ∈ keysA l := by
  induction l with
  | nil => simpa [eraseA] using h
  | cons p rest ih =>
    obtain ⟨k, v⟩ := p
    rw [keysA_cons, List.mem_cons]
    by_cases hk : k = i
    · subst hk
      rw [eraseA_cons_self] at h
      exact Or.inr h
    · rw [eraseA_cons_ne v rest hk, keysA_cons, List.mem_cons] at h
      rcases h with h | h
      · exact Or.inl h
      · exact Or.inr (ih h)

theorem nodup_keysA_eraseA {α : Type} {l : List (ObjId × α)} {i : ObjId}
    (h : (keysA l).Nodup) : (keysA (eraseA l i)).Nodup := by
  induction l with
  | nil => simpa [eraseA] using h
  | cons p rest ih =>
    obtain ⟨k, v⟩ := p
    rw [keysA_cons, List.nodup_cons] at h
    by_cases hk : k = i
    · subst hk
      rw [eraseA_cons_self]
      exact h.2
    · rw [eraseA_cons_ne v rest hk, keysA_cons, List.nodup_cons]
      exact ⟨fun hmem => h.1 (mem_keysA_eraseA hmem), ih h.2⟩

theorem lookupA_eraseA_self {α : Type} {l : List (ObjId × α)} {i : ObjId}
    (h : (keysA l).Nodup) : lookupA (eraseA l i) i = none := by
  induction l with
  | nil => rfl
  | cons p rest ih =>
    obtain ⟨k, v⟩ := p
    rw [keysA_cons, List.nodup_cons] at h
    by_cases hk : k = i
    · subst hk
      rw [eraseA_cons_self]
      rcases h' : lookupA rest k with _ | w
      · rfl
      · exact absurd ((lookupA_isSome_iff_mem rest k).1 (by simp [h'])) h.1
    · rw [eraseA_cons_ne v rest hk, lookupA_cons_ne v _ hk]
      exact ih h.2

theorem lookupA_eraseA_ne {α : Type} (l : List (ObjId × α)) {i j : ObjId}
    (h : j ≠ i) : lookupA (eraseA l i) j = lookupA l j := by
  induction l with
  | nil => rfl
  | cons p rest ih =>
    obtain ⟨k, v⟩ := p
    by_cases hk : k = i
    · subst hk
      rw [eraseA_cons_self, lookupA_cons_ne v rest (Ne.symm h)]
    · by_cases hkj : k = j
      · subst hkj
        rw [eraseA_cons_ne v rest hk, lookupA_cons_self, lookupA_cons_self]
      · rw [eraseA_cons_ne v rest hk, lookupA_cons_ne v _ hkj,
          lookupA_cons_ne v rest hkj, ih]

theorem lookupA_eraseA_none {α : Type} {l : List (ObjId × α)} {i j : ObjId}
    (h : lookupA l j = none) : lookupA (eraseA l i) j = none := by
  induction l with
  | nil => rfl
  | cons p rest ih =>
    obtain ⟨k, v⟩ := p
    by_cases hkj : k = j
    · subst hkj
      rw [lookupA_cons_self] at h
      exact absurd h (by simp)
    · rw [lookupA_cons_ne v rest hkj] at h
      by_cases hk : k = i
      · subst hk
        rw [eraseA_cons_self]
        exact h
      · rw [eraseA_cons_ne v rest hk, lookupA_cons_ne v _ hkj]
        exact ih h

theorem length_eraseA {α : Type} {l : List (ObjId × α)} {i : ObjId} {v : α}
    (h : lookupA l i = some v) : (eraseA l i).length + 1 = l.length := by
  induction l with
  | nil => simp [lookupA] at h
  | cons p rest ih =>
    obtain ⟨k, w⟩ := p
    by_cases hk : k = i
    · subst hk
      rw [eraseA_cons_self]
      rfl
    · rw [lookupA_cons_ne w rest hk] at h
      rw [eraseA_cons_ne w rest hk, List.length_cons, List.length_cons, ih h]

theorem lookupA_updateA_self {α : Type} (l : List (ObjId × α)) (i : ObjId)
    (f : α → α) : lookupA (updateA l i f) i = (lookupA l i).map f := by
  induction l with
  | nil => rfl
  | cons p rest ih =>
    obtain ⟨k, v⟩ := p
    by_cases hk : k = i
    · subst hk
      rw [updateA_cons_self, lookupA_cons_self, lookupA_cons_self]
      rfl
    · rw [updateA_cons_ne v rest f hk, lookupA_cons_ne v _ hk,
        lookupA_cons_ne v rest hk, ih]

theorem lookupA_updateA_ne {α : Type} (l : List (ObjId × α)) {i j : ObjId}
    (f : α → α) (h : j ≠ i) : lookupA (updateA l i f) j = lookupA l j := by
  induction l with
  | nil => rfl
  | cons p rest ih =>
    obtain ⟨k, v⟩ := p
    by_cases hk : k = i
    · subst hk
      rw [updateA_cons_self, lookupA_cons_ne (f v) rest (Ne.symm h),
        lookupA_cons_ne v rest (Ne.symm h)]
    · by_cases hkj : k = j
      · subst hkj
        rw [updateA_cons_ne v rest f hk, lookupA_cons_self, lookupA_cons_self]
      · rw [updateA_cons_ne v rest f hk, lookupA_cons_ne v _ hkj,
          lookupA_cons_ne v rest hkj, ih]

theorem lookupA_updateA_isSome_eq {α : Type} (l : List (ObjId × α)) (i j : ObjId)
    (f : α → α) :
    (lookupA (updateA l i f) j).isSome = (lookupA l j).isSome := by
  by_cases hj : j = i
  · subst hj
    rw [lookupA_updateA_self]
    rcases h' : lookupA l j with _ | v <;> simp
  · rw [lookupA_updateA_ne l f hj]

theorem wf_init : WF initState := by
  refine ⟨rfl, by simp [initState, keysA], ?_, ?_⟩ <;>
    intro i h <;> simp [initState, lookupA] at h

theorem wf_mint {s : State} {name description url : List Nat} {sender : Addr}
    {r : OpResult} (hwf : WF s)
    (h : mint_nft s name description url sender = .ok r) : WF r.state := by
  unfold mint_nft at h
  split at h
  · exact absurd h (by simp)
  split at h
  · exact absurd h (by simp)
  split at h
  · exact absurd h (by simp)
  injection h with h
  subst h
  refine ⟨hwf.count_eq, hwf.nodup, ?_, ?_⟩
  · intro i hi
    show (lookupA ((s.next_id, _) :: s.objects) i).isSome = true
    by_cases hik : s.next_id = i
    · subst hik
      rw [lookupA_cons_self]
      rfl
    · rw [lookupA_cons_ne _ s.objects hik]
      exact hwf.listed_obj i hi
  · intro i hi
    show i < s.next_id + 1
    by_cases hik : s.next_id = i
    · subst hik
      exact Nat.lt_succ_self _
    · replace hi : (lookupA ((s.next_id, _) :: s.objects) i).isSome = true := hi
      rw [lookupA_cons_ne _ s.objects hik] at hi
      exact Nat.lt_succ_of_lt (hwf.obj_lt i hi)

theorem wf_list {s : State} {nft_id : ObjId} {price : Nat} {sender : Addr}
    {r : OpResult} (hwf : WF s)
    (h : list_nft s nft_id price sender = .ok r) : WF r.state := by
  unfold list_nft at h
  split at h
  · exact absurd h (by simp)
  case _ obj hobj =>
  split at h
  · exact absurd h (by simp)
  split at h
  · exact absurd h (by simp)
  split at h
  · exact absurd h (by simp)
  case _ hnotlisted =>
  injection h with h
  subst h
  have hnone : lookupA s.listings nft_id = none := by
    rcases h' : lookupA s.listings nft_id with _ | v
    · rfl
    · rw [h'] at hnotlisted
      simp at hnotlisted
  refine ⟨?_, ?_, ?_, ?_⟩
  · show s.total_nfts_listed + 1 = ((nft_id, _) :: s.listings).length
    rw [List.length_cons, hwf.count_eq]
  · rw [keysA_cons, List.nodup_cons]
    exact ⟨lookupA_none_not_mem hnone, hwf.nodup⟩
  · intro i hi
    replace hi : (lookupA ((nft_id, _) :: s.listings) i).isSome = true := hi
    show (lookupA (updateA s.objects nft_id _) i).isSome = true
    rw [lookupA_updateA_isSome_eq]
    by_cases hik : nft_id = i
    · subst hik
      rw [hobj]
      rfl
    · rw [lookupA_cons_ne _ s.listings hik] at hi
      exact hwf.listed_obj i hi
  · intro i hi
    replace hi : (lookupA (updateA s.objects nft_id _) i).isSome = true := hi
    rw [lookupA_updateA_isSome_eq] at hi
    exact hwf.obj_lt i hi

theorem wf_delist {s : State} {nft_id : ObjId} {sender : Addr}
    {r : OpResult} (hwf : WF s)
    (h : delist_nft s nft_id sender = .ok r) : WF r.state := by
  unfold delist_nft at h
  split at h
  · exact absurd h (by simp)
  split at h
  · exact absurd h (by simp)
  case _ listing hlisting =>
  split at h
  · exact absurd h (by simp)
  split at h
  · exact absurd h (by simp)
  case _ hcount =>
  injection h with h
  subst h
  refine ⟨?_, nodup_keysA_eraseA hwf.nodup, ?_, ?_⟩
  · show s.total_nfts_listed - 1 = (eraseA s.listings nft_id).length
    have hl := length_eraseA hlisting
    have hc := hwf.count_eq
    omega
  · intro i hi
    replace hi : (lookupA (eraseA s.listings nft_id) i).isSome = true := hi
    show (lookupA (updateA s.objects nft_id _) i).isSome = true
    rw [lookupA_updateA_isSome_eq]
    by_cases hik : i = nft_id
    · subst hik
      rw [lookupA_eraseA_self hwf.nodup] at hi
      simp at hi
    · rw [lookupA_eraseA_ne _ hik] at hi
      exact hwf.listed_obj i hi
  · intro i hi
    replace hi : (lookupA (updateA s.objects nft_id _) i).isSome = true := hi
    rw [lookupA_updateA_isSome_eq] at hi
    exact hwf.obj_lt i hi

theorem wf_buy {s : State} {nft_id : ObjId} {payment : Nat} {sender : Addr}
    {r : OpResult} (hwf : WF s)
    (h : buy_nft s nft_id payment sender = .ok r) : WF r.state := by
  unfold buy_nft at h
  split at h
  · exact absurd h (by simp)
  split at h
  · exact absurd h (by simp)
  case _ listing hlisting =>
  split at h
  · exact absurd h (by simp)
  split at h
  · exact absurd h (by simp)
  case _ hcount =>
  injection h with h
  subst h
  refine ⟨?_, nodup_keysA_eraseA hwf.nodup, ?_, ?_⟩
  · show s.total_nfts_listed - 1 = (eraseA s.listings nft_id).length
    have hl := length_eraseA hlisting
    have hc := hwf.count_eq
    omega
  · intro i hi
    replace hi : (lookupA (eraseA s.listings nft_id) i).isSome = true := hi
    show (lookupA (updateA s.objects nft_id _) i).isSome = true
    rw [lookupA_updateA_isSome_eq]
    by_cases hik : i = nft_id
    · subst hik
      rw [lookupA_eraseA_self hwf.nodup] at hi
      simp at hi
    · rw [lookupA_eraseA_ne _ hik] at hi
      exact hwf.listed_obj i hi
  · intro i hi
    replace hi : (lookupA (updateA s.objects nft_id _) i).isSome = true := hi
    rw [lookupA_updateA_isSome_eq] at hi
    exact hwf.obj_lt i hi

theorem wf_update_owner {s : State} {nft_id : ObjId} {new_owner sender : Addr}
    {r : OpResult} (hwf : WF s)
    (h : update_owner s nft_id new_owner sender = .ok r) : WF r.state := by
  unfold update_owner at h
  split at h
  · exact absurd h (by simp)
  split at h
  · exact absurd h (by simp)
  injection h with h
  subst h
  refine ⟨hwf.count_eq, hwf.nodup, ?_, ?_⟩
  · intro i hi
    show (lookupA (updateA s.objects nft_id _) i).isSome = true
    rw [lookupA_updateA_isSome_eq]
    exact hwf.listed_obj i hi
  · intro i hi
    replace hi : (lookupA (updateA s.objects nft_id _) i).isSome = true := hi
    rw [lookupA_updateA_isSome_eq] at hi
    exact hwf.obj_lt i hi

theorem wf_step {s : State} {op : Op} {r : OpResult} (hwf : WF s)
    (h : step s op = .ok r) : WF r.state := by
  cases op with
  | mint name description url sender => exact wf_mint hwf h
  | list nft_id price sender => exact wf_list hwf h
  | delist nft_id sender => exact wf_delist hwf h
  | buy nft_id payment sender => exact wf_buy hwf h
  | updateOwner nft_id new_owner sender => exact wf_update_owner hwf h

theorem wf_applyOp {s : State} (op : Op) (hwf : WF s) : WF (applyOp s op) := by
  unfold applyOp
  rcases h : step s op with e | r
  · exact hwf
  · exact wf_step hwf h

theorem reachable_wf {s : State} (h : Reachable s) : WF s := by
  induction h with
  | init => exact wf_init
  | step s op _ ih => exact wf_applyOp op ih

theorem reachable_sW1 : Reachable sW1 :=
  Reachable.step initState (.mint [65] [66] [67] 1) Reachable.init

theorem reachable_sW2 : Reachable sW2 :=
  Reachable.step sW1 (.list 0 100 1) reachable_sW1

theorem reachable_sW3 : Reachable sW3 :=
  Reachable.step sW2 (.updateOwner 0 2 1) reachable_sW2

/-- A state that holds a listing and satisfies the invariant lets any
sufficiently funded buy commit, with the exact committed result. -/
theorem buy_spec {s : State} {L : Listing} (i : ObjId) (pay buyer : Nat)
    (hwf : WF s) (hL : lookupA s.listings i = some L) (hp : L.price ≤ pay) :
    ∃ obj, lookupA s.objects i = some obj ∧
      buy_nft s i pay buyer = .ok
        { state :=
            { s with
              listings := eraseA s.listings i
              total_sales := s.total_sales + 1
              total_volume := s.total_volume + L.price
              total_nfts_listed := s.total_nfts_listed - 1
              objects :=
                updateA s.objects i
                  (fun o =>
                    { o with
                      nft := { o.nft with owner := buyer }
                      holder := buyer }) }
          events := [.NFTSold i L.seller buyer L.price,
                     .OwnerUpdated i obj.nft.owner buyer]
          coinOut := [(pay, L.seller)]
          nftOut := [(i, buyer)] } := by
  have hsome : (lookupA s.objects i).isSome = true :=
    hwf.listed_obj i (by rw [hL]; rfl)
  rcases hobj : lookupA s.objects i with _ | obj
  · rw [hobj] at hsome
    simp at hsome
  refine ⟨obj, rfl, ?_⟩
  have hcount : s.total_nfts_listed ≠ 0 := by
    have hl := length_eraseA hL
    have hc := hwf.count_eq
    omega
  unfold buy_nft
  rw [hobj, hL]
  dsimp only
  rw [if_neg (by omega : ¬pay < L.price), if_neg hcount]

/-- Claim C1: on any reachable state with an active listing and payment at
least the price, buy commits: the listing is removed, the owner field
becomes the buyer, the whole payment coin (excess included) goes to the
seller, total_sales grows by 1, total_volume by exactly the listing price,
and the active-listings counter drops by 1. -/
theorem claim1_buy_success {s : State} {L : Listing} (i : ObjId)
    (pay buyer : Nat) (hs : Reachable s)
    (hL : lookupA s.listings i = some L) (hp : L.price ≤ pay) :
    ∃ r, buy_nft s i pay buyer = .ok r ∧
      lookupA r.state.listings i = none ∧
      ownerOf r.state i = some buyer ∧
      r.coinOut = [(pay, L.seller)] ∧
      r.state.total_sales = s.total_sales + 1 ∧
      r.state.total_volume = s.total_volume + L.price ∧
      r.state.total_nfts_listed + 1 = s.total_nfts_listed := by
  have hwf := reachable_wf hs
  obtain ⟨obj, hobj, hok⟩ := buy_spec i pay buyer hwf hL hp
  refine ⟨_, hok, ?_, ?_, rfl, rfl, rfl, ?_⟩
  · exact lookupA_eraseA_self hwf.nodup
  · show (lookupA (updateA s.objects i _) i).map (fun o => o.nft.owner) = some buyer
    rw [lookupA_updateA_self, hobj]
    rfl
  · show (s.total_nfts_listed - 1) + 1 = s.total_nfts_listed
    have hl := length_eraseA hL
    have hc := hwf.count_eq
    omega

/-- Witness for claim C1: buying NFT 0 on sW2 for 150 as address 2. -/
theorem claim1_witness :
    Reachable sW2 ∧ lookupA sW2.listings 0 = some ⟨0, 1, 100, true⟩ ∧
      (∃ r, buy_nft sW2 0 150 2 = .ok r ∧
        lookupA r.state.listings 0 = none ∧
        ownerOf r.state 0 = some 2 ∧
        r.coinOut = [(150, 1)] ∧
        r.state.total_sales = sW2.total_sales + 1 ∧
        r.state.total_volume = sW2.total_volume + 100 ∧
        r.state.total_nfts_listed + 1 = sW2.total_nfts_listed) :=
  ⟨reachable_sW2, by decide,
    claim1_buy_success 0 150 2 reachable_sW2
      (show lookupA sW2.listings 0 = some ⟨0, 1, 100, true⟩ by decide)
      (by decide)⟩

/-- Claim C3: in every reachable state the total-active-listings counter
equals the number of entries in the listings table. -/
theorem claim3_listed_counter_matches_table {s : State} (h : Reachable s) :
    s.total_nfts_listed = s.listings.length :=
  (reachable_wf h).count_eq

/-- Witness for claim C3 at the concrete reachable state sW2. -/
theorem claim3_witness :
    Reachable sW2 ∧ sW2.total_nfts_listed = sW2.listings.length :=
  ⟨reachable_sW2, claim3_listed_counter_matches_table reachable_sW2⟩

/-- Claim C10: buy never requires the buyer to differ from the seller; the
listing's own seller can buy with sufficient payment, the payment flows
back to that seller, the seller becomes the owner, and the sales and
volume counters still advance. -/
theorem claim10_self_purchase {s : State} {L : Listing} (i : ObjId)
    (pay : Nat) (hs : Reachable s)
    (hL : lookupA s.listings i = some L) (hp : L.price ≤ pay) :
    ∃ r, buy_nft s i pay L.seller = .ok r ∧
      r.coinOut = [(pay, L.seller)] ∧
      ownerOf r.state i = some L.seller ∧
      r.state.total_sales = s.total_sales + 1 ∧
      r.state.total_volume = s.total_volume + L.price := by
  have hwf := reachable_wf hs
  obtain ⟨obj, hobj, hok⟩ := buy_spec i pay L.seller hwf hL hp
  refine ⟨_, hok, rfl, ?_, rfl, rfl⟩
  show (lookupA (updateA s.objects i _) i).map (fun o => o.nft.owner) = some L.seller
  rw [lookupA_updateA_self, hobj]
  rfl

/-- Witness for claim C10: seller 1 buys its own listing on sW2 at the
exact price. -/
theorem claim10_witness :
    Reachable sW2 ∧ lookupA sW2.listings 0 = some ⟨0, 1, 100, true⟩ ∧
      (∃ r, buy_nft sW2 0 100 1 = .ok r ∧
        r.coinOut = [(100, 1)] ∧
        ownerOf r.state 0 = some 1 ∧
        r.state.total_sales = sW2.total_sales + 1 ∧
        r.state.total_volume = sW2.total_volume + 100) :=
  ⟨reachable_sW2, by decide,
    claim10_self_purchase 0 100 reachable_sW2
      (show lookupA sW2.listings 0 = some ⟨0, 1, 100, true⟩ by decide)
      (by decide)⟩

/-- Claim C2: a failed operation mutates nothing; in particular an
underpaid buy on an active listing fails with EInsufficientPayment and the
listing stays purchasable with sufficient payment, and a delist by anyone
other than the seller of record fails with ENotOwner (Unauthorized). -/
theorem claim2_failed_ops_no_mutation {s : State} {L : Listing} (i : ObjId)
    (hs : Reachable s) (hL : lookupA s.listings i = some L) :
    (∀ op : Op, isOk (step s op) = false → applyOp s op = s) ∧
    (∀ pay buyer, pay < L.price →
      buy_nft s i pay buyer = .error .EInsufficientPayment ∧
      applyOp s (.buy i pay buyer) = s ∧
      ∀ pay2 buyer2, L.price ≤ pay2 → isOk (buy_nft s i pay2 buyer2) = true) ∧
    (∀ caller, caller ≠ L.seller →
      delist_nft s i caller = .error .ENotOwner ∧
      applyOp s (.delist i caller) = s) := by
  have hwf := reachable_wf hs
  have hsome : (lookupA s.objects i).isSome = true :=
    hwf.listed_obj i (by rw [hL]; rfl)
  rcases hobj : lookupA s.objects i with _ | obj
  · rw [hobj] at hsome
    simp at hsome
  refine ⟨?_, ?_, ?_⟩
  · intro op hop
    unfold applyOp
    rcases hst : step s op with e | r
    · rfl
    · rw [hst] at hop
      simp [isOk] at hop
  · intro pay buyer hpay
    have herr : buy_nft s i pay buyer = .error .EInsufficientPayment := by
      unfold buy_nft
      rw [hobj, hL]
      dsimp only
      rw [if_pos hpay]
    refine ⟨herr, ?_, ?_⟩
    · unfold applyOp
      rw [show step s (.buy i pay buyer) = .error .EInsufficientPayment from herr]
    · intro pay2 buyer2 hp2
      obtain ⟨obj2, _, hok⟩ := buy_spec i pay2 buyer2 hwf hL hp2
      rw [hok]
      rfl
  · intro caller hcaller
    have herr : delist_nft s i caller = .error .ENotOwner := by
      unfold delist_nft
      rw [hobj, hL]
      dsimp only
      rw [if_pos (fun h => hcaller h.symm)]
    refine ⟨herr, ?_⟩
    unfold applyOp
    rw [show step s (.delist i caller) = .error .ENotOwner from herr]

/-- Witness for claim C2 on sW2: an underpaid buy and a delist by a
non-seller both fail with the claimed errors. -/
theorem claim2_witness :
    Reachable sW2 ∧ lookupA sW2.listings 0 = some ⟨0, 1, 100, true⟩ ∧
      buy_nft sW2 0 99 2 = .error .EInsufficientPayment ∧
      delist_nft sW2 0 2 = .error .ENotOwner :=
  ⟨reachable_sW2, by decide,
    ((claim2_failed_ops_no_mutation 0 reachable_sW2
      (show lookupA sW2.listings 0 = some ⟨0, 1, 100, true⟩ by decide)).2.1
        99 2 (by decide)).1,
    ((claim2_failed_ops_no_mutation 0 reachable_sW2
      (show lookupA sW2.listings 0 = some ⟨0, 1, 100, true⟩ by decide)).2.2
        2 (by decide)).1⟩

/-- Claim C4 is violated by the code: update_owner performs no listing
check, so on the reachable state sW2 (NFT 0 actively listed by owner 1)
the owner's direct transfer to address 2 commits, leaving the listing
dangling. -/
theorem claim4_update_owner_ignores_listing :
    Reachable sW3 ∧
    ((lookupA sW2.listings 0).isSome = true ∧
      ownerOf sW2 0 = some 1 ∧
      isOk (update_owner sW2 0 2 1) = true ∧
      ownerOf sW3 0 = some 2 ∧
      (lookupA sW3.listings 0).isSome = true) :=
  ⟨reachable_sW3, by decide⟩

/-- Counterexample to claim C5 as stated: with price 0 and a caller who is
not the owner, list_nft fails with EInvalidPrice, not with the claimed
ENotOwner (Unauthorized) — the price check runs first. -/
theorem claim5_counterexample :
    ownerOf sW1 0 = some 1 ∧ (2 : Addr) ≠ 1 ∧
    list_nft sW1 0 0 2 = .error .EInvalidPrice ∧
    list_nft sW1 0 0 2 ≠ .error .ENotOwner := by decide

/-- Claim C5 amended: list first fails with EInvalidPrice on a
non-positive price; otherwise with ENotOwner when the caller is not the
owner; otherwise with the table's duplicate-key abort (AlreadyListed) when
a listing already exists, leaving the state unchanged; otherwise it
commits, storing Listing{nft_id, seller := caller, price, listed := true}
and incrementing the active-listings counter. -/
theorem claim5_list_spec {s : State} {obj : Obj} (i : ObjId) (price : Nat)
    (caller : Addr) (hobj : lookupA s.objects i = some obj) :
    (price = 0 → list_nft s i price caller = .error .EInvalidPrice) ∧
    (price ≠ 0 → obj.nft.owner ≠ caller →
      list_nft s i price caller = .error .ENotOwner) ∧
    (price ≠ 0 → obj.nft.owner = caller →
      (lookupA s.listings i).isSome = true →
      list_nft s i price caller = .error .EFieldAlreadyExists ∧
      applyOp s (.list i price caller) = s) ∧
    (price ≠ 0 → obj.nft.owner = caller → lookupA s.listings i = none →
      ∃ r, list_nft s i price caller = .ok r ∧
        lookupA r.state.listings i = some ⟨i, caller, price, true⟩ ∧
        r.state.total_nfts_listed = s.total_nfts_listed + 1) := by
  refine ⟨?_, ?_, ?_, ?_⟩
  · intro hp
    unfold list_nft
    rw [hobj]
    dsimp only
    rw [if_pos hp]
  · intro hp hown
    unfold list_nft
    rw [hobj]
    dsimp only
    rw [if_neg hp, if_pos hown]
  · intro hp hown hlisted
    have herr : list_nft s i price caller = .error .EFieldAlreadyExists := by
      unfold list_nft
      rw [hobj]
      dsimp only
      rw [if_neg hp, if_neg (by rw [hown]; exact fun h => h rfl), if_pos hlisted]
    refine ⟨herr, ?_⟩
    unfold applyOp
    rw [show step s (.list i price caller) = .error .EFieldAlreadyExists from herr]
  · intro hp hown hnone
    have hok : list_nft s i price caller = .ok
        { state :=
            { s with
              listings := (i, ⟨i, caller, price, true⟩) :: s.listings
              total_nfts_listed := s.total_nfts_listed + 1
              objects :=
                updateA s.objects i
                  (fun o => { o with holder := marketplaceAddr }) }
          events := [.NFTListed i caller price]
          coinOut := []
          nftOut := [(i, marketplaceAddr)] } := by
      unfold list_nft
      rw [hobj]
      dsimp only
      rw [if_neg hp, if_neg (by rw [hown]; exact fun h => h rfl),
        if_neg (by rw [hnone]; simp)]
    refine ⟨_, hok, ?_, rfl⟩
    exact lookupA_cons_self i _ s.listings

/-- Witness for the amended claim C5: on sW1 the owner lists NFT 0 at
price 100 and the listing is created with the counter incremented. -/
theorem claim5_witness :
    lookupA sW1.objects 0 =
      some { nft := { name := [65], description := [66], url := [67]
                      creator := 1, owner := 1 }, holder := 1 } ∧
    (∃ r, list_nft sW1 0 100 1 = .ok r ∧
      lookupA r.state.listings 0 = some ⟨0, 1, 100, true⟩ ∧
      r.state.total_nfts_listed = sW1.total_nfts_listed + 1) :=
  ⟨by decide,
    (claim5_list_spec 0 100 1
      (show lookupA sW1.objects 0 =
        some { nft := { name := [65], description := [66], url := [67]
                        creator := 1, owner := 1 }, holder := 1 } by decide)).2.2.2
      (by decide) (by decide) (by decide)⟩

/-- Counterexample to claim C6 as stated: on sW3 (ownership was moved to
address 2 by update_owner while NFT 0 stayed listed by seller 1), a buy by
address 3 emits OwnerUpdated with old_owner 2, the NFT's owner field, not
the removed listing's seller 1. -/
theorem claim6_counterexample :
    lookupA sW3.listings 0 = some ⟨0, 1, 100, true⟩ ∧
    okEvents (buy_nft sW3 0 100 3) =
      some [.NFTSold 0 1 3 100, .OwnerUpdated 0 2 3] ∧
    (2 : Addr) ≠ 1 := by decide

/-- Claim C6 amended: every committed buy emits exactly Sold then
OwnerUpdated in that order, with new_owner the buyer and old_owner the
NFT's owner field at purchase time (the listing's seller whenever the
owner was not changed while listed); every other committed operation emits
exactly one event. -/
theorem claim6_events {s : State} {op : Op} {r : OpResult}
    (h : step s op = .ok r) :
    match op with
    | .buy i _ buyer =>
      ∃ L obj, lookupA s.listings i = some L ∧
        lookupA s.objects i = some obj ∧
        r.events = [.NFTSold i L.seller buyer L.price,
                    .OwnerUpdated i obj.nft.owner buyer]
    | _ => r.events.length = 1 := by
  cases op with
  | mint name description url sender =>
    replace h : mint_nft s name description url sender = Except.ok r := h
    unfold mint_nft at h
    split at h
    · exact absurd h (by simp)
    split at h
    · exact absurd h (by simp)
    split at h
    · exact absurd h (by simp)
    injection h with h
    subst h
    rfl
  | list nft_id price sender =>
    replace h : list_nft s nft_id price sender = Except.ok r := h
    unfold list_nft at h
    split at h
    · exact absurd h (by simp)
    split at h
    · exact absurd h (by simp)
    split at h
    · exact absurd h (by simp)
    split at h
    · exact absurd h (by simp)
    injection h with h
    subst h
    rfl
  | delist nft_id sender =>
    replace h : delist_nft s nft_id sender = Except.ok r := h
    unfold delist_nft at h
    split at h
    · exact absurd h (by simp)
    split at h
    · exact absurd h (by simp)
    split at h
    · exact absurd h (by simp)
    split at h
    · exact absurd h (by simp)
    injection h with h
    subst h
    rfl
  | buy nft_id payment sender =>
    replace h : buy_nft s nft_id payment sender = Except.ok r := h
    unfold buy_nft at h
    split at h
    · exact absurd h (by simp)
    case _ obj hobj =>
    split at h
    · exact absurd h (by simp)
    case _ listing hlisting =>
    split at h
    · exact absurd h (by simp)
    split at h
    · exact absurd h (by simp)
    injection h with h
    subst h
    exact ⟨listing, obj, hlisting, hobj, rfl⟩
  | updateOwner nft_id new_owner sender =>
    replace h : update_owner s nft_id new_owner sender = Except.ok r := h
    unfold update_owner at h
    split at h
    · exact absurd h (by simp)
    split at h
    · exact absurd h (by simp)
    injection h with h
    subst h
    rfl

/-- Witness for the amended claim C6: the committed buy of NFT 0 on sW2
emits Sold then OwnerUpdated. -/
theorem claim6_witness :
    step sW2 (Op.buy 0 150 2) = .ok rW ∧
    (∃ L obj, lookupA sW2.listings 0 = some L ∧
      lookupA sW2.objects 0 = some obj ∧
      rW.events = [.NFTSold 0 L.seller 2 L.price,
                   .OwnerUpdated 0 obj.nft.owner 2]) :=
  ⟨by decide,
    claim6_events (show step sW2 (Op.buy 0 150 2) = .ok rW by decide)⟩

theorem no_listing_preserved {s : State} {i : ObjId} (op : Op)
    (habs : lookupA s.listings i = none) (hop : notListOn i op) :
    lookupA (applyOp s op).listings i = none := by
  unfold applyOp
  rcases hst : step s op with e | r
  · exact habs
  · cases op with
    | mint name description url sender =>
      replace hst : mint_nft s name description url sender = Except.ok r := hst
      unfold mint_nft at hst
      split at hst
      · exact absurd hst (by simp)
      split at hst
      · exact absurd hst (by simp)
      split at hst
      · exact absurd hst (by simp)
      injection hst with hst
      subst hst
      exact habs
    | list j price sender =>
      replace hst : list_nft s j price sender = Except.ok r := hst
      unfold list_nft at hst
      split at hst
      · exact absurd hst (by simp)
      split at hst
      · exact absurd hst (by simp)
      split at hst
      · exact absurd hst (by simp)
      split at hst
      · exact absurd hst (by simp)
      injection hst with hst
      subst hst
      show lookupA ((j, _) :: s.listings) i = none
      rw [lookupA_cons_ne _ s.listings hop]
      exact habs
    | delist j sender =>
      replace hst : delist_nft s j sender = Except.ok r := hst
      unfold delist_nft at hst
      split at hst
      · exact absurd hst (by simp)
      split at hst
      · exact absurd hst (by simp)
      split at hst
      · exact absurd hst (by simp)
      split at hst
      · exact absurd hst (by simp)
      injection hst with hst
      subst hst
      exact lookupA_eraseA_none habs
    | buy j payment sender =>
      replace hst : buy_nft s j payment sender = Except.ok r := hst
      unfold buy_nft at hst
      split at hst
      · exact absurd hst (by simp)
      split at hst
      · exact absurd hst (by simp)
      split at hst
      · exact absurd hst (by simp)
      split at hst
      · exact absurd hst (by simp)
      injection hst with hst
      subst hst
      exact lookupA_eraseA_none habs
    | updateOwner j new_owner sender =>
      replace hst : update_owner s j new_owner sender = Except.ok r := hst
      unfold update_owner at hst
      split at hst
      · exact absurd hst (by simp)
      split at hst
      · exact absurd hst (by simp)
      injection hst with hst
      subst hst
      exact habs

theorem obj_preserved {s : State} {i : ObjId} (op : Op)
    (h : (lookupA s.objects i).isSome = true) :
    (lookupA (applyOp s op).objects i).isSome = true := by
  unfold applyOp
  rcases hst : step s op with e | r
  · exact h
  · cases op with
    | mint name description url sender =>
      replace hst : mint_nft s name description url sender = Except.ok r := hst
      unfold mint_nft at hst
      split at hst
      · exact absurd hst (by simp)
      split at hst
      · exact absurd hst (by simp)
      split at hst
      · exact absurd hst (by simp)
      injection hst with hst
      subst hst
      show (lookupA ((s.next_id, _) :: s.objects) i).isSome = true
      by_cases hik : s.next_id = i
      · subst hik
        rw [lookupA_cons_self]
        rfl
      · rw [lookupA_cons_ne _ s.objects hik]
        exact h
    | list j price sender =>
      replace hst : list_nft s j price sender = Except.ok r := hst
      unfold list_nft at hst
      split at hst
      · exact absurd hst (by simp)
      split at hst
      · exact absurd hst (by simp)
      split at hst
      · exact absurd hst (by simp)
      split at hst
      · exact absurd hst (by simp)
      injection hst with hst
      subst hst
      show (lookupA (updateA s.objects j _) i).isSome = true
      rw [lookupA_updateA_isSome_eq]
      exact h
    | delist j sender =>
      replace hst : delist_nft s j sender = Except.ok r := hst
      unfold delist_nft at hst
      split at hst
      · exact absurd hst (by simp)
      split at hst
      · exact absurd hst (by simp)
      split at hst
      · exact absurd hst (by simp)
      split at hst
      · exact absurd hst (by simp)
      injection hst with hst
      subst hst
      show (lookupA (updateA s.objects j _) i).isSome = true
      rw [lookupA_updateA_isSome_eq]
      exact h
    | buy j payment sender =>
      replace hst : buy_nft s j payment sender = Except.ok r := hst
      unfold buy_nft at hst
      split at hst
      · exact absurd hst (by simp)
      split at hst
      · exact absurd hst (by simp)
      split at hst
      · exact absurd hst (by simp)
      split at hst
      · exact absurd hst (by simp)
      injection hst with hst
      subst hst
      show (lookupA (updateA s.objects j _) i).isSome = true
      rw [lookupA_updateA_isSome_eq]
      exact h
    | updateOwner j new_owner sender =>
      replace hst : update_owner s j new_owner sender = Except.ok r := hst
      unfold update_owner at hst
      split at hst
      · exact absurd hst (by simp)
      split at hst
      · exact absurd hst (by simp)
      injection hst with hst
      subst hst
      show (lookupA (updateA s.objects j _) i).isSome = true
      rw [lookupA_updateA_isSome_eq]
      exact h

theorem trace_preserves_unlisted {i : ObjId} (ops : List Op) :
    ∀ s : State, lookupA s.listings i = none →
      (lookupA s.objects i).isSome = true →
      (∀ op ∈ ops, notListOn i op) →
      lookupA (ops.foldl applyOp s).listings i = none ∧
        (lookupA (ops.foldl applyOp s).objects i).isSome = true := by
  induction ops with
  | nil => exact fun s h1 h2 _ => ⟨h1, h2⟩
  | cons op rest ih =>
    intro s h1 h2 hall
    rw [List.foldl_cons]
    exact ih (applyOp s op)
      (no_listing_preserved op h1 (hall op (List.mem_cons_self op rest)))
      (obj_preserved op h2)
      (fun o ho => hall o (List.mem_cons_of_mem op ho))

theorem buy_not_listed {t : State} (i : ObjId) (pay buyer : Nat)
    (h1 : lookupA t.listings i = none)
    (h2 : (lookupA t.objects i).isSome = true) :
    buy_nft t i pay buyer = .error .ENotListed ∧
      applyOp t (.buy i pay buyer) = t := by
  rcases ho : lookupA t.objects i with _ | o
  · rw [ho] at h2
    simp at h2
  · have herr : buy_nft t i pay buyer = .error .ENotListed := by
      unfold buy_nft
      rw [ho, h1]
    refine ⟨herr, ?_⟩
    unfold applyOp
    rw [show step t (.buy i pay buyer) = .error .ENotListed from herr]

/-- Claim C7: once a buy on an asset commits, every later buy on that
asset — scheduled after it with no intervening list on the asset — fails
with ENotListed and leaves the state unchanged. -/
theorem claim7_no_double_sale {s : State} {r : OpResult} (i : ObjId)
    (pay buyer : Nat) (hs : Reachable s)
    (h : buy_nft s i pay buyer = .ok r) (ops : List Op)
    (hops : ∀ op ∈ ops, notListOn i op) :
    ∀ pay2 buyer2,
      buy_nft (ops.foldl applyOp r.state) i pay2 buyer2 =
        .error .ENotListed ∧
      applyOp (ops.foldl applyOp r.state) (.buy i pay2 buyer2) =
        ops.foldl applyOp r.state := by
  have hwf := reachable_wf hs
  unfold buy_nft at h
  split at h
  · exact absurd h (by simp)
  case _ obj hobj =>
  split at h
  · exact absurd h (by simp)
  case _ listing hlisting =>
  split at h
  · exact absurd h (by simp)
  split at h
  · exact absurd h (by simp)
  injection h with h
  subst h
  have habs : lookupA (eraseA s.listings i) i = none :=
    lookupA_eraseA_self hwf.nodup
  have hobj2 : (lookupA (updateA s.objects i
      (fun o => { o with nft := { o.nft with owner := buyer }, holder := buyer })) i).isSome = true := by
    rw [lookupA_updateA_isSome_eq, hobj]
    rfl
  obtain ⟨h1, h2⟩ := trace_preserves_unlisted ops
    ({ s with
        listings := eraseA s.listings i
        total_sales := s.total_sales + 1
        total_volume := s.total_volume + listing.price
        total_nfts_listed := s.total_nfts_listed - 1
        objects := updateA s.objects i
          (fun o => { o with nft := { o.nft with owner := buyer }, holder := buyer }) })
    habs hobj2 hops
  intro pay2 buyer2
  exact buy_not_listed i pay2 buyer2 h1 h2

/-- Witness for claim C7: after the committed buy of NFT 0 on sW2, a later
delist attempt by the old seller runs, and a second buy fails with
ENotListed. -/
theorem claim7_witness :
    buy_nft sW2 0 150 2 = .ok rW ∧
    buy_nft ([Op.delist 0 1].foldl applyOp rW.state) 0 150 4 =
      .error .ENotListed :=
  ⟨by decide,
    (claim7_no_double_sale 0 150 2 reachable_sW2
      (show buy_nft sW2 0 150 2 = .ok rW by decide)
      [Op.delist 0 1]
      (by
        intro op hop
        rw [List.mem_singleton] at hop
        subst hop
        trivial)
      150 4).1⟩

theorem map_owner_updateA {l : List (ObjId × Obj)} (i j : ObjId)
    (f : Obj → Obj) (hf : ∀ o, (f o).nft.owner = o.nft.owner) :
    (lookupA (updateA l i f) j).map (fun o => o.nft.owner) =
      (lookupA l j).map (fun o => o.nft.owner) := by
  by_cases hj : j = i
  · subst hj
    rw [lookupA_updateA_self]
    rcases lookupA l j with _ | o
    · rfl
    · show some ((f o).nft.owner) = some o.nft.owner
      rw [hf o]
  · rw [lookupA_updateA_ne l f hj]

theorem list_owner_frame {s : State} {i : ObjId} {price : Nat}
    {caller : Addr} {r : OpResult} (h : list_nft s i price caller = .ok r) :
    ∀ j, ownerOf r.state j = ownerOf s j := by
  unfold list_nft at h
  split at h
  · exact absurd h (by simp)
  split at h
  · exact absurd h (by simp)
  split at h
  · exact absurd h (by simp)
  split at h
  · exact absurd h (by simp)
  injection h with h
  subst h
  intro j
  show (lookupA (updateA s.objects i _) j).map (fun o => o.nft.owner) =
    (lookupA s.objects j).map (fun o => o.nft.owner)
  exact map_owner_updateA i j _ (fun o => rfl)

theorem delist_owner_frame {s : State} {i : ObjId} {caller : Addr}
    {r : OpResult} (h : delist_nft s i caller = .ok r) :
    (∃ L : Listing, lookupA s.listings i = some L ∧ L.seller = caller) ∧
      r.nftOut = [(i, caller)] ∧
      ∀ j, ownerOf r.state j = ownerOf s j := by
  unfold delist_nft at h
  split at h
  · exact absurd h (by simp)
  split at h
  · exact absurd h (by simp)
  case _ listing hlisting =>
  split at h
  · exact absurd h (by simp)
  case _ hseller =>
  split at h
  · exact absurd h (by simp)
  injection h with h
  subst h
  refine ⟨⟨listing, hlisting, by
    by_contra hne
    exact hseller hne⟩, rfl, ?_⟩
  intro j
  show (lookupA (updateA s.objects i _) j).map (fun o => o.nft.owner) =
    (lookupA s.objects j).map (fun o => o.nft.owner)
  exact map_owner_updateA i j _ (fun o => rfl)

/-- Counterexample to claim C8 as stated: on sW3 the seller of record
(address 1) delists NFT 0 and receives the object back, but the owner
field is 2, not the seller 1, because update_owner changed it while the
asset was listed. -/
theorem claim8_counterexample :
    lookupA sW3.listings 0 = some ⟨0, 1, 100, true⟩ ∧
    isOk (delist_nft sW3 0 1) = true ∧
    ownerOf sW4 0 = some 2 ∧
    (2 : Addr) ≠ 1 := by decide

/-- Claim C8 amended: a committed list never mutates any owner field; a
committed delist is by the seller of record, returns the NFT object to
that seller and leaves every owner field unchanged (so the owner is still
the seller whenever it was not changed while listed); among the five
operations only buy and update_owner write the owner field. -/
theorem claim8_owner_frame :
    (∀ (s : State) (i : ObjId) (price : Nat) (caller : Addr) (r : OpResult),
      list_nft s i price caller = .ok r →
      ∀ j, ownerOf r.state j = ownerOf s j) ∧
    (∀ (s : State) (i : ObjId) (caller : Addr) (r : OpResult),
      delist_nft s i caller = .ok r →
      (∃ L : Listing, lookupA s.listings i = some L ∧ L.seller = caller) ∧
        r.nftOut = [(i, caller)] ∧
        ∀ j, ownerOf r.state j = ownerOf s j) ∧
    (∀ (s : State) (op : Op) (r : OpResult), Reachable s →
      step s op = .ok r → changesOwnerField op = false →
      ∀ j, (lookupA s.objects j).isSome = true →
        ownerOf r.state j = ownerOf s j) := by
  refine ⟨fun s i price caller r h => list_owner_frame h,
    fun s i caller r h => delist_owner_frame h, ?_⟩
  intro s op r hs h hch j hj
  cases op with
  | mint name description url sender =>
    replace h : mint_nft s name description url sender = Except.ok r := h
    unfold mint_nft at h
    split at h
    · exact absurd h (by simp)
    split at h
    · exact absurd h (by simp)
    split at h
    · exact absurd h (by simp)
    injection h with h
    subst h
    have hlt : j < s.next_id := (reachable_wf hs).obj_lt j hj
    show (lookupA ((s.next_id, _) :: s.objects) j).map (fun o => o.nft.owner) =
      (lookupA s.objects j).map (fun o => o.nft.owner)
    rw [lookupA_cons_ne _ s.objects (Nat.ne_of_gt hlt)]
  | list nft_id price sender =>
    exact list_owner_frame h j
  | delist nft_id sender =>
    exact (delist_owner_frame h).2.2 j
  | buy nft_id payment sender =>
    exact absurd hch (by simp [changesOwnerField])
  | updateOwner nft_id new_owner sender =>
    exact absurd hch (by simp [changesOwnerField])

/-- Witness for the amended claim C8: the committed listing of NFT 0 on
sW1 leaves the owner field of NFT 0 untouched. -/
theorem claim8_witness :
    list_nft sW1 0 100 1 = .ok rList ∧
    ownerOf rList.state 0 = ownerOf sW1 0 :=
  ⟨by decide,
    claim8_owner_frame.1 sW1 0 100 1 rList
      (show list_nft sW1 0 100 1 = .ok rList by decide) 0⟩

/-- Counterexample to claim C9 as stated: with valid UTF-8 name and
description, mint still aborts on url bytes above 0x7F, because
url::new_unsafe_from_bytes builds a std::ascii string that rejects
non-ASCII bytes — the url bytes are validated after all, so mint does
not accept every url byte sequence. -/
theorem claim9_counterexample :
    validUtf8 [65] = true ∧ validUtf8 [66] = true ∧
    mint_nft initState [65] [66] [255, 0] 1 = .error .EInvalidAscii ∧
    isOk (mint_nft initState [65] [66] [255, 0] 1) = false := by decide

/-- Claim C9 amended: mint aborts, mutating nothing and emitting nothing,
whenever the name or description bytes are not valid UTF-8; the url bytes
are validated as ASCII by url::new_unsafe_from_bytes via
std::ascii::string (abort EInvalidAscii on any byte above 0x7F, checked
after the name and before the description), and mint commits for every
all-ASCII url byte sequence when name and description are valid UTF-8. -/
theorem claim9_mint_validation (s : State) (name description url : List Nat)
    (sender : Addr) :
    (validUtf8 name = false ∨ validUtf8 description = false →
      isOk (mint_nft s name description url sender) = false ∧
      applyOp s (.mint name description url sender) = s) ∧
    (validUtf8 name = true → validAscii url = false →
      mint_nft s name description url sender = .error .EInvalidAscii) ∧
    (validUtf8 name = true → validAscii url = true →
      validUtf8 description = true →
      ∃ r, mint_nft s name description url sender = .ok r ∧
        r.state.total_nfts_minted = s.total_nfts_minted + 1 ∧
        r.events = [.NFTMinted s.next_id sender sender name url]) := by
  refine ⟨?_, ?_, ?_⟩
  · intro h
    have herr : ∃ e, mint_nft s name description url sender = .error e := by
      unfold mint_nft
      by_cases hn : validUtf8 name = false
      · exact ⟨_, by rw [if_pos hn]⟩
      · rcases h with h | h
        · exact absurd h hn
        · by_cases hu : validAscii url = false
          · exact ⟨_, by rw [if_neg hn, if_pos hu]⟩
          · exact ⟨_, by rw [if_neg hn, if_neg hu, if_pos h]⟩
    obtain ⟨e, herr⟩ := herr
    constructor
    · rw [herr]
      rfl
    · unfold applyOp
      rw [show step s (.mint name description url sender) =
        .error e from herr]
  · intro hn hu
    unfold mint_nft
    rw [if_neg (by rw [hn]; simp), if_pos hu]
  · intro hn hu hd
    have hok : mint_nft s name description url sender = .ok
        { state :=
            { s with
              total_nfts_minted := s.total_nfts_minted + 1
              objects := (s.next_id,
                { nft := { name := name, description := description
                           url := url, creator := sender, owner := sender }
                  holder := sender }) :: s.objects
              next_id := s.next_id + 1 }
          events := [.NFTMinted s.next_id sender sender name url]
          coinOut := []
          nftOut := [(s.next_id, sender)] } := by
      unfold mint_nft
      rw [if_neg (by rw [hn]; simp), if_neg (by rw [hu]; simp),
        if_neg (by rw [hd]; simp)]
    exact ⟨_, hok, rfl, rfl⟩

/-- Witness for the amended claim C9: a 0xFF name byte aborts the mint; a
0x80 url byte aborts with the ASCII error; an all-ASCII mint commits. -/
theorem claim9_witness :
    validUtf8 [255] = false ∧
    isOk (mint_nft initState [255] [66] [67] 1) = false ∧
    mint_nft initState [65] [66] [128] 1 = .error .EInvalidAscii ∧
    (∃ r, mint_nft initState [65] [66] [67] 1 = .ok r ∧
      r.state.total_nfts_minted = initState.total_nfts_minted + 1 ∧
      r.events = [.NFTMinted initState.next_id 1 1 [65] [67]]) :=
  ⟨by decide,
    ((claim9_mint_validation initState [255] [66] [67] 1).1
      (Or.inl (by decide))).1,
    (claim9_mint_validation initState [65] [66] [128] 1).2.1
      (by decide) (by decide),
    (claim9_mint_validation initState [65] [66] [67] 1).2.2
      (by decide) (by decide) (by decide)⟩

end NftMarketplace
